import Mathlib

/-!
Verification of the task-orchestration core of the metaheuristic optimization
API server (`api_server/main.py`, `api_server/matlab_bridge.py`,
`api_server/models.py`).

Floats are embedded as rationals (task registry, rankings) or reals
(synthetic backend, whose fitness values involve `exp`); the Python value
`float('inf')` stored into `currentFitness` and `bestFitness` becomes
`⊤ : WithTop ℚ`.  The asynchronous interleaving of the batch executor
(`_run_batch_task`) with the cancellation endpoint (`cancel_task`) is embedded
as an executable step function over a `World` state driven by a list of
actions.
-/

namespace MetaOpt

/-- The status values of `models.TaskProgress.status`:
`Literal["idle", "running", "completed", "error", "cancelled"]`. -/
inductive Status
  | idle
  | running
  | completed
  | error
  | cancelled
deriving DecidableEq, Repr

/-- `models.TaskProgress`: the task registry record stored in
`active_tasks`.  `currentFitness` and `bestFitness` start as
`float('inf')`, embedded as `WithTop ℚ`. -/
structure Task where
  taskId : String
  status : Status
  currentIteration : ℕ
  totalIterations : ℕ
  currentFitness : WithTop ℚ
  bestFitness : WithTop ℚ
  elapsedTime : ℚ
  estimatedRemaining : ℚ
  progress : ℚ
deriving DecidableEq

/-- The `TaskProgress(...)` literal built by `submit_batch_task`
(main.py lines 185-195): status `idle`, zero iteration counter,
`totalIterations = request.config.maxIterations * len(request.algorithms)`,
both fitness fields `float('inf')`, progress 0. -/
def mkTask (taskId : String) (maxIterations numAlgorithms : ℕ) : Task :=
  { taskId := taskId
    status := .idle
    currentIteration := 0
    totalIterations := maxIterations * numAlgorithms
    currentFitness := ⊤
    bestFitness := ⊤
    elapsedTime := 0
    estimatedRemaining := 0
    progress := 0 }

/-- The closure `progress_callback(current, total, fitness)` defined inside
`_run_batch_task` (main.py lines 286-292).  The nonlocal counter
`completed_iterations` always equals `task.currentIteration` (the callback is
its only writer and keeps them equal), and the engine local
`total_iterations` always equals `task.totalIterations` (both are computed as
`maxIterations * len(algorithms)`), so the closure is embedded as a pure
update of the task record.  Note that the source increments the counter by
`1` per invocation and never reads `current` or `total`. -/
def progress_callback (current total : ℕ) (fitness : ℚ) (t : Task) : Task :=
  { t with
    currentIteration := t.currentIteration + 1
    currentFitness := (fitness : WithTop ℚ)
    bestFitness := min t.bestFitness (fitness : WithTop ℚ)
    progress := (((t.currentIteration + 1 : ℕ) : ℚ) / (t.totalIterations : ℚ)) * 100 }

/-- The body of the `DELETE /api/v1/tasks/{task_id}` handler `cancel_task`
(main.py lines 219-223) once the task has been found: if the status is
`running` it is set to `cancelled` and `CancelTaskResponse(cancelled=True)`
is returned, otherwise the task is untouched and the response is `False`. -/
def cancel_task (t : Task) : Task × Bool :=
  if t.status = .running then ({ t with status := .cancelled }, true)
  else (t, false)

/-- The comparison relation used by `_calculate_rankings`:
`sorted(results.items(), key=lambda x: x[1]["bestFitness"])` orders pairs by
their fitness component.  Python `sorted` is stable, which
`List.insertionSort` with a non-strict `≤` key reproduces. -/
def fitnessLE (a b : String × ℚ) : Prop := a.2 ≤ b.2

instance : DecidableRel fitnessLE := fun a b => inferInstanceAs (Decidable (a.2 ≤ b.2))

instance : IsTotal (String × ℚ) fitnessLE := ⟨fun a b => le_total a.2 b.2⟩

instance : IsTrans (String × ℚ) fitnessLE := ⟨fun _ _ _ h1 h2 => le_trans h1 h2⟩

/-- `_calculate_rankings` (main.py lines 264-270): stable-sort the
`(algorithmId, bestFitness)` pairs by ascending fitness and assign the ranks
`1, 2, 3, ...` by `enumerate` position.  Dicts are embedded as association
lists in insertion order. -/
def _calculate_rankings (results : List (String × ℚ)) : List (String × ℕ) :=
  let sorted_algs := List.insertionSort fitnessLE results
  sorted_algs.enum.map (fun x => (x.2.1, x.1 + 1))

/-- The observable behavior of one `matlab_bridge.run_optimization` call made
by `_run_batch_task` for one algorithm: the sequence of fitness values its
progress callbacks deliver, and whether the call raises an exception at the
end (`fails = true`) or returns a result. -/
structure AlgBehavior where
  reports : List ℚ
  fails : Bool
deriving DecidableEq

/-- The control point of the `_run_batch_task` coroutine:
`entry` is before `task.status = "running"` (main.py line 276); `boundary`
is the top of the `for algorithm_id in request.algorithms` loop with the
listed algorithms still to run; `inAlg` is inside one backend call with the
listed callback reports still to be delivered; `finished` is after the
coroutine returned. -/
inductive Phase
  | entry (algs : List AlgBehavior)
  | boundary (algs : List AlgBehavior)
  | inAlg (reports : List ℚ) (fails : Bool) (rest : List AlgBehavior)
  | finished
deriving DecidableEq

/-- The shared state of one batch task: the `active_tasks[task_id]` record,
the executor control point, the number of backend invocations begun (a
history variable counting how many times `matlab_bridge.run_optimization`
was entered), the number of per-algorithm results in the local `results`
accumulator, and the `task_results[task_id]` entry (`none` when absent,
`some n` when a result dict of `n` entries was published). -/
structure World where
  task : Task
  phase : Phase
  started : ℕ
  acc : ℕ
  store : Option ℕ
deriving DecidableEq

/-- One scheduler step of the `_run_batch_task` coroutine, advancing to its
next suspension point.  The steps mirror main.py lines 273-309: set status to
`running`; at the loop head break if the status is `cancelled`, else enter
the backend call; inside a call deliver the next progress callback
(regardless of the task status — the backend cannot be interrupted); at the
end of a call either catch the exception and write status `error`, or store
the result and continue; after the loop, if the status is not `cancelled`,
write status `completed`, progress 100, and publish `task_results[task_id]`. -/
def engineStep (w : World) : World :=
  match w.phase with
  | .entry algs =>
      { w with task := { w.task with status := .running }, phase := .boundary algs }
  | .boundary [] =>
      if w.task.status = .cancelled then { w with phase := .finished }
      else
        { w with
          task := { w.task with status := .completed, progress := 100 }
          store := some w.acc
          phase := .finished }
  | .boundary (b :: rest) =>
      if w.task.status = .cancelled then { w with phase := .finished }
      else { w with phase := .inAlg b.reports b.fails rest, started := w.started + 1 }
  | .inAlg (f :: fs) fl rest =>
      { w with task := progress_callback 0 0 f w.task, phase := .inAlg fs fl rest }
  | .inAlg [] fl rest =>
      if fl then { w with task := { w.task with status := .error }, phase := .finished }
      else { w with acc := w.acc + 1, phase := .boundary rest }
  | .finished => w

/-- An action interleaved on the event loop: one executor step, or one call
of the `cancel_task` endpoint for this task. -/
inductive Act
  | engine
  | cancel
deriving DecidableEq

/-- Apply one interleaved action. -/
def stepW : Act → World → World
  | .engine, w => engineStep w
  | .cancel, w => { w with task := (cancel_task w.task).1 }

/-- Run a whole interleaving of executor steps and cancel calls. -/
def runW (w : World) (l : List Act) : World :=
  l.foldl (fun w a => stepW a w) w

/-- The state right after `submit_batch_task` returned: the freshly created
task (status `idle`) and the scheduled but not yet started `_run_batch_task`
coroutine. -/
def initialWorld (taskId : String) (maxIterations : ℕ) (algs : List AlgBehavior) : World :=
  { task := mkTask taskId maxIterations algs.length
    phase := .entry algs
    started := 0
    acc := 0
    store := none }

/-- Number of progress callbacks that can still fire in the current run. -/
def Phase.pendingReports : Phase → ℕ
  | .entry algs => (algs.map (fun b => b.reports.length)).sum
  | .boundary algs => (algs.map (fun b => b.reports.length)).sum
  | .inAlg reports _ rest => reports.length + (rest.map (fun b => b.reports.length)).sum
  | .finished => 0

/-- Terminal statuses, as tested by the membership check
`task.status in ["completed", "error", "cancelled"]`. -/
def Status.isTerminal : Status → Bool
  | .completed => true
  | .error => true
  | .cancelled => true
  | _ => false

/-- State invariant of the batch executor, established at submission and
preserved by every interleaved action: before the executor begins the status
is still `idle`; once `completed` or `error` is written the coroutine has
returned; the `completed` write is accompanied by progress 100; otherwise
`progress` equals `100 * currentIteration / totalIterations` as recomputed by
the callback; a published `task_results` entry implies status `completed`. -/
structure Inv (w : World) : Prop where
  entryIdle : ∀ algs, w.phase = .entry algs → w.task.status = .idle
  termFin : w.task.status = .completed ∨ w.task.status = .error → w.phase = .finished
  comp100 : w.task.status = .completed → w.task.progress = 100
  progSync : w.task.progress =
      ((w.task.currentIteration : ℚ) / (w.task.totalIterations : ℚ)) * 100
      ∨ w.task.status = .completed
  storeComp : w.store.isSome → w.task.status = .completed

/-- The report-count bound: the callbacks that can still fire never push
`currentIteration` past `totalIterations`. -/
def IterB (w : World) : Prop :=
  w.task.currentIteration + w.phase.pendingReports ≤ w.task.totalIterations

/-- One JSON message sent over the `/ws/tasks/{task_id}` websocket: a
progress snapshot of the task, or the stored result payload (represented by
its entry count, matching `World.store`). -/
inductive Msg
  | progress (t : Task)
  | result (r : ℕ)
deriving DecidableEq

/-- One wake-up of the polling loop in `websocket_task_progress`
(main.py lines 234-251).  Each iteration reads the shared state at two
distinct instants, separated by the `await websocket.send_json` suspension:
`taskSnap` is the `active_tasks` entry at wake-up, whose `model_dump()` is
evaluated before the send suspends and becomes the progress payload;
`statusAfterSend` and `resultAfterSend` are the live `task.status` and the
`task_results` entry re-read in the synchronous slice after the send
returns — the executor may have advanced the task in between.  When
`taskSnap` is `none` nothing is sent and the two post-send fields are never
read. -/
structure Obs where
  taskSnap : Option Task
  statusAfterSend : Status
  resultAfterSend : Option ℕ
deriving DecidableEq

/-- The `websocket_task_progress` loop (main.py lines 234-251), run over a
finite sequence of observed wake-ups (the list ends when the subscriber
disconnects).  While the task id is unknown nothing is sent; a known task
produces a progress message carrying the pre-send snapshot; the terminal
check `task.status in ["completed", "error", "cancelled"]` then runs on the
status re-read after the send, and when that status is terminal the stored
result is sent when present and the loop breaks — so the emitted progress
payload and the checked status may disagree. -/
def websocket_task_progress : List Obs → List Msg
  | [] => []
  | o :: rest =>
    match o.taskSnap with
    | none => websocket_task_progress rest
    | some t =>
      if o.statusAfterSend.isTerminal then
        Msg.progress t :: (match o.resultAfterSend with
          | some r => [Msg.result r]
          | none => [])
      else Msg.progress t :: websocket_task_progress rest

/-- A wake-up that does not break the loop: the task was absent, or the
status re-read after the send was not terminal. -/
def Obs.live (o : Obs) : Prop :=
  o.taskSnap = none ∨ o.statusAfterSend.isTerminal = false

/-- Number of result messages in a websocket transcript. -/
def countResults (msgs : List Msg) : ℕ :=
  (msgs.filter fun m => match m with | .result _ => true | _ => false).length

/-- The per-iteration fitness of `_simulate_optimization`
(matlab_bridge.py lines 174-182): `decay = math.exp(-3 * i / max_iter)`,
`noise = random.uniform(-0.1, 0.1) * decay`,
`current_fitness = initial_fitness * decay + noise`, floored at `1e-10`.
The uniform draw of iteration `i` is the abstract value `noise i`; Python
floats are embedded as reals. -/
noncomputable def simFitness (initF : ℝ) (noise : ℕ → ℝ) (max_iter i : ℕ) : ℝ :=
  let decay := Real.exp (-3 * (i : ℝ) / (max_iter : ℝ))
  let f := initF * decay + noise i * decay
  if f < 1e-10 then 1e-10 else f

/-- The `convergence_curve` list built by `for i in range(max_iter)`
(matlab_bridge.py lines 170-183). -/
noncomputable def convergence_curve (initF : ℝ) (noise : ℕ → ℝ) (max_iter : ℕ) : List ℝ :=
  (List.range max_iter).map (simFitness initF noise max_iter)

/-- The sequence of `progress_callback(i + 1, max_iter, current_fitness)`
invocations made by the loop (matlab_bridge.py lines 186-187): one for every
`i` in `range(max_iter)` with `i % 10 == 0`. -/
noncomputable def sinkTrace (initF : ℝ) (noise : ℕ → ℝ) (max_iter : ℕ) :
    List (ℕ × ℕ × ℝ) :=
  ((List.range max_iter).filter (fun i => i % 10 == 0)).map
    (fun i => (i + 1, max_iter, simFitness initF noise max_iter i))

/-- The configuration dict as consumed by the synthetic backend: the two
keys it reads (`config.get('maxIterations', 500)` and
`config.get('populationSize', 30)`, `none` when the key is absent) and the
remaining key/value pairs, passed through untouched into the result
metadata. -/
structure SimConfig where
  maxIterations : Option ℕ
  populationSize : Option ℕ
  extra : List (String × String)

/-- The result dict built by `_simulate_optimization`
(matlab_bridge.py lines 193-205); the `metadata` sub-dict is flattened into
the `meta` fields. -/
structure SimResult where
  bestSolution : List ℝ
  bestFitness : ℝ
  convergenceCurve : List ℝ
  totalEvaluations : ℕ
  elapsedTime : ℝ
  metaAlgorithm : String
  metaVersion : String
  metaIterations : ℕ
  metaConfig : SimConfig

/-- `_simulate_optimization(algorithm, problem_id, config, progress_callback)`
(matlab_bridge.py lines 153-207), with the stream of `random.uniform` draws
made explicit: draw 0 is `initial_fitness` (uniform on `[100, 1000]`), draw
`1 + i` is iteration `i`'s noise factor (uniform on `[-0.1, 0.1]`), and draws
`1 + max_iter + j` for `j < 30` are the `bestSolution` components (uniform on
`[-0.001, 0.001]`).  When `max_iter = 0` the subscript
`convergence_curve[-1]` raises `IndexError`, embedded as `none`. -/
noncomputable def _simulate_optimization (algorithm problem_id : String)
    (config : SimConfig) (rnd : ℕ → ℝ) : Option SimResult :=
  let max_iter := config.maxIterations.getD 500
  let dim := 30
  let curve := convergence_curve (rnd 0) (fun i => rnd (1 + i)) max_iter
  match curve.getLast? with
  | none => none
  | some bf => some
    { bestSolution := (List.range dim).map (fun j => rnd (1 + max_iter + j))
      bestFitness := bf
      convergenceCurve := curve
      totalEvaluations := max_iter * config.populationSize.getD 30
      elapsedTime := (max_iter : ℝ) * 0.001
      metaAlgorithm := algorithm
      metaVersion := "2.0.0"
      metaIterations := max_iter
      metaConfig := config }

/-- `models.ProblemDefinition`: the problem submitted in a request (the
`type` literal and the union-typed bounds are flattened to one real each;
none of these fields reaches the synthetic backend). -/
structure ProblemDefinition where
  id : String
  dimension : ℕ
  lowerBound : ℝ
  upperBound : ℝ

/-- `matlab_bridge.run_optimization` in simulation mode as invoked by the
HTTP handlers (main.py lines 134-138, 152-156, 295-300): of the whole
problem definition only `request.problem.id` is passed on. -/
noncomputable def run_optimization (algorithm : String) (problem : ProblemDefinition)
    (config : SimConfig) (rnd : ℕ → ℝ) : Option SimResult :=
  _simulate_optimization algorithm problem.id config rnd

/-- All fields of a synthetic-backend result except the verbatim echo of
the configuration inside the metadata. -/
noncomputable def stripConfig (r : SimResult) :
    List ℝ × ℝ × List ℝ × ℕ × ℝ × String × String × ℕ :=
  (r.bestSolution, r.bestFitness, r.convergenceCurve, r.totalEvaluations,
    r.elapsedTime, r.metaAlgorithm, r.metaVersion, r.metaIterations)

example : _calculate_rankings [("A", 5), ("B", 2), ("C", 8)] =
    [("B", 1), ("A", 2), ("C", 3)] := by decide

example : _calculate_rankings [("A", 5), ("B", 5)] = [("A", 1), ("B", 2)] := by decide

example : min (⊤ : WithTop ℚ) ((5 : ℚ) : WithTop ℚ) = ((5 : ℚ) : WithTop ℚ) := by decide

example : (progress_callback 1 100 9 (mkTask "t" 100 1)).currentIteration = 1 := by decide

example : (progress_callback 1 100 9 (mkTask "t" 100 1)).bestFitness = ((9 : ℚ) : WithTop ℚ) := by
  decide

theorem runW_append (w : World) (l1 l2 : List Act) :
    runW w (l1 ++ l2) = runW (runW w l1) l2 :=
  List.foldl_append _ _ _ _

example :
    (runW (initialWorld "t" 2 [⟨[5, 3], false⟩]) [.engine, .engine, .engine, .cancel]).task.status
      = .cancelled := by decide

example :
    (runW (initialWorld "t" 2 [⟨[5, 3], false⟩])
      [.engine, .engine, .engine, .cancel, .engine]).task.currentIteration = 2 := by decide

example :
    (runW (initialWorld "t" 1 [⟨[], false⟩]) [.engine, .engine, .engine, .engine]).task.status
      = .completed := by decide

theorem inv_initial (tid : String) (mi : ℕ) (algs : List AlgBehavior) :
    Inv (initialWorld tid mi algs) := by
  refine ⟨fun _ _ => rfl, ?_, ?_, ?_, ?_⟩
  · rintro (h | h) <;> simp [initialWorld, mkTask] at h
  · intro h; simp [initialWorld, mkTask] at h
  · left; simp [initialWorld, mkTask]
  · intro h; simp [initialWorld] at h

theorem iterB_initial (tid : String) (mi : ℕ) (algs : List AlgBehavior)
    (hb : ∀ b ∈ algs, b.reports.length ≤ mi) :
    IterB (initialWorld tid mi algs) := by
  show 0 + ((algs.map (fun b => b.reports.length)).sum) ≤ mi * algs.length
  rw [Nat.zero_add]
  calc (algs.map (fun b => b.reports.length)).sum
      ≤ (algs.map (fun b => b.reports.length)).length • mi := by
        refine List.sum_le_card_nsmul _ _ ?_
        intro x hx
        obtain ⟨b, hb2, rfl⟩ := List.mem_map.mp hx
        exact hb b hb2
    _ = mi * algs.length := by simp [Nat.smul_one_eq_cast, mul_comm]

theorem inv_step (a : Act) (w : World) (h : Inv w) : Inv (stepW a w) := by
  obtain ⟨e1, e2, e3, e4, e5⟩ := h
  cases a with
  | cancel =>
    show Inv { w with task := (cancel_task w.task).1 }
    unfold cancel_task
    split_ifs with hr
    · refine ⟨?_, ?_, ?_, ?_, ?_⟩
      · intro algs hph
        exact absurd (e1 algs hph) (by rw [hr]; intro hcon; cases hcon)
      · rintro (hc | hc) <;> cases hc
      · intro hc; cases hc
      · rcases e4 with h4 | h4
        · left; exact h4
        · rw [hr] at h4; cases h4
      · intro hs
        have := e5 hs
        rw [hr] at this; cases this
    · exact ⟨e1, e2, e3, e4, e5⟩
  | engine =>
    show Inv (engineStep w)
    cases hph : w.phase with
    | entry algs =>
      have hidle := e1 algs hph
      simp only [engineStep, hph]
      refine ⟨?_, ?_, ?_, ?_, ?_⟩
      · intro _ hcon; cases hcon
      · rintro (hc | hc) <;> cases hc
      · intro hc; cases hc
      · rcases e4 with h4 | h4
        · left; exact h4
        · rw [hidle] at h4; cases h4
      · intro hs
        have := e5 hs
        rw [hidle] at this; cases this
    | boundary algs =>
      cases algs with
      | nil =>
        simp only [engineStep, hph]
        split_ifs with hc
        · refine ⟨?_, ?_, ?_, ?_, ?_⟩
          · intro _ hcon; cases hcon
          · intro _; rfl
          · intro hcc; rw [hc] at hcc; cases hcc
          · rcases e4 with h4 | h4
            · left; exact h4
            · rw [hc] at h4; cases h4
          · intro hs
            have := e5 hs
            rw [hc] at this; cases this
        · exact ⟨(fun _ hcon => nomatch hcon), (fun _ => rfl), (fun _ => rfl),
            Or.inr rfl, (fun _ => rfl)⟩
      | cons b rest =>
        simp only [engineStep, hph]
        split_ifs with hc
        · refine ⟨?_, ?_, ?_, ?_, ?_⟩
          · intro _ hcon; cases hcon
          · intro _; rfl
          · intro hcc; rw [hc] at hcc; cases hcc
          · rcases e4 with h4 | h4
            · left; exact h4
            · rw [hc] at h4; cases h4
          · intro hs
            have := e5 hs
            rw [hc] at this; cases this
        · refine ⟨?_, ?_, ?_, e4, e5⟩
          · intro _ hcon; cases hcon
          · intro hterm
            have := e2 hterm
            rw [hph] at this; cases this
          · exact e3
    | inAlg reports fl rest =>
      cases reports with
      | nil =>
        simp only [engineStep, hph]
        split_ifs with hf
        · refine ⟨?_, ?_, ?_, ?_, ?_⟩
          · intro _ hcon; cases hcon
          · intro _; rfl
          · intro hcc; cases hcc
          · rcases e4 with h4 | h4
            · left; exact h4
            · have := e2 (Or.inl h4)
              rw [hph] at this; cases this
          · intro hs
            have := e5 hs
            have := e2 (Or.inl this)
            rw [hph] at this; cases this
        · refine ⟨?_, ?_, e3, e4, e5⟩
          · intro _ hcon; cases hcon
          · intro hterm
            have := e2 hterm
            rw [hph] at this; cases this
      | cons f fs =>
        simp only [engineStep, hph]
        refine ⟨?_, ?_, ?_, ?_, ?_⟩
        · intro _ hcon; cases hcon
        · intro hterm
          have := e2 hterm
          rw [hph] at this; cases this
        · intro hcc
          have := e2 (Or.inl hcc)
          rw [hph] at this; cases this
        · left; rfl
        · intro hs; exact e5 hs
    | finished =>
      simp only [engineStep, hph]
      exact ⟨e1, e2, e3, e4, e5⟩

theorem inv_runW (w : World) (l : List Act) (h : Inv w) : Inv (runW w l) := by
  induction l generalizing w with
  | nil => exact h
  | cons a l ih => exact ih _ (inv_step a w h)

theorem iterB_step (a : Act) (w : World) (h : IterB w) : IterB (stepW a w) := by
  cases a with
  | cancel =>
    show IterB { w with task := (cancel_task w.task).1 }
    unfold IterB cancel_task at *
    split_ifs <;> exact h
  | engine =>
    show IterB (engineStep w)
    unfold IterB at *
    cases hph : w.phase with
    | entry algs => simpa only [engineStep, hph, Phase.pendingReports] using h
    | boundary algs =>
      rw [hph, Phase.pendingReports] at h
      cases algs with
      | nil =>
        simp only [engineStep, hph]
        split_ifs <;> simpa only [Phase.pendingReports] using h
      | cons b rest =>
        simp only [engineStep, hph]
        split_ifs
        · simp only [Phase.pendingReports]
          omega
        · simp only [Phase.pendingReports, List.map_cons, List.sum_cons] at h ⊢
          omega
    | inAlg reports fl rest =>
      rw [hph, Phase.pendingReports] at h
      cases reports with
      | nil =>
        simp only [engineStep, hph]
        split_ifs <;> simp only [Phase.pendingReports] <;> omega
      | cons f fs =>
        simp only [engineStep, hph, Phase.pendingReports, progress_callback,
          List.length_cons] at h ⊢
        omega
    | finished => simpa only [engineStep, hph] using h

theorem iterB_runW (w : World) (l : List Act) (h : IterB w) : IterB (runW w l) := by
  induction l generalizing w with
  | nil => exact h
  | cons a l ih => exact ih _ (iterB_step a w h)

theorem engineStep_finished (w : World) (h : w.phase = .finished) : engineStep w = w := by
  simp only [engineStep, h]

/-- Once `completed` or `error` is written, no interleaved action changes the
world at all: the executor has returned and `cancel_task` declines. -/
theorem stepW_frozen (a : Act) (w : World) (h : Inv w)
    (hs : w.task.status = .completed ∨ w.task.status = .error) : stepW a w = w := by
  cases a with
  | engine => exact engineStep_finished w (h.termFin hs)
  | cancel =>
    show { w with task := (cancel_task w.task).1 } = w
    unfold cancel_task
    split_ifs with hr
    · rcases hs with hs | hs <;> (rw [hs] at hr; cases hr)
    · rfl

theorem runW_frozen (w : World) (l : List Act) (h : Inv w)
    (hs : w.task.status = .completed ∨ w.task.status = .error) : runW w l = w := by
  induction l with
  | nil => rfl
  | cons a l ih =>
    show runW (stepW a w) l = w
    rw [stepW_frozen a w h hs]
    exact ih

/-- Once the status is terminal, it stays terminal and no further backend
invocation begins (`started` is frozen), even though progress callbacks of an
algorithm already in flight may keep firing. -/
theorem stepW_terminal (a : Act) (w : World) (h : Inv w)
    (ht : w.task.status.isTerminal = true) :
    (stepW a w).started = w.started ∧ (stepW a w).task.status.isTerminal = true := by
  cases a with
  | cancel =>
    refine ⟨rfl, ?_⟩
    show ((cancel_task w.task).1).status.isTerminal = true
    unfold cancel_task
    split_ifs with hr
    · rfl
    · exact ht
  | engine =>
    show (engineStep w).started = w.started ∧ (engineStep w).task.status.isTerminal = true
    cases hph : w.phase with
    | entry algs =>
      rw [h.entryIdle algs hph] at ht
      cases ht
    | boundary algs =>
      have hnce : ¬(w.task.status = .completed ∨ w.task.status = .error) := by
        intro hce
        have := h.termFin hce
        rw [hph] at this; cases this
      have hc : w.task.status = .cancelled := by
        cases hsv : w.task.status with
        | idle => rw [hsv] at ht; simp [Status.isTerminal] at ht
        | running => rw [hsv] at ht; simp [Status.isTerminal] at ht
        | completed => exact absurd (Or.inl hsv) hnce
        | error => exact absurd (Or.inr hsv) hnce
        | cancelled => rfl
      cases algs <;> simp only [engineStep, hph, if_pos hc] <;> exact ⟨by trivial, ht⟩
    | inAlg reports fl rest =>
      cases reports with
      | nil =>
        simp only [engineStep, hph]
        split_ifs
        · exact ⟨by trivial, by trivial⟩
        · exact ⟨by trivial, ht⟩
      | cons f fs =>
        simp only [engineStep, hph]
        exact ⟨by trivial, ht⟩
    | finished =>
      simp only [engineStep, hph]
      exact ⟨by trivial, ht⟩

theorem runW_terminal (w : World) (l : List Act) (h : Inv w)
    (ht : w.task.status.isTerminal = true) :
    (runW w l).started = w.started ∧ (runW w l).task.status.isTerminal = true := by
  induction l generalizing w with
  | nil => exact ⟨rfl, ht⟩
  | cons a l ih =>
    obtain ⟨h1, h2⟩ := stepW_terminal a w h ht
    obtain ⟨h3, h4⟩ := ih (stepW a w) (inv_step a w h) h2
    exact ⟨h1 ▸ h3, h4⟩

/-- Auxiliary arithmetic fact: with `ci ≤ total`, the callback formula
`100 * ci / total` cannot exceed 100 (it is 0 when `total = 0`). -/
theorem progress_formula_le_100 (ci total : ℕ) (hle : ci ≤ total) :
    ((ci : ℚ) / (total : ℚ)) * 100 ≤ 100 := by
  rcases Nat.eq_zero_or_pos total with h0 | hpos
  · subst h0
    have hci : ci = 0 := Nat.le_zero.mp hle
    subst hci
    norm_num
  · have hposq : (0 : ℚ) < (total : ℚ) := by exact_mod_cast hpos
    have h1 : ((ci : ℚ) / (total : ℚ)) ≤ 1 := by
      rw [div_le_one hposq]
      exact_mod_cast hle
    calc ((ci : ℚ) / (total : ℚ)) * 100 ≤ 1 * 100 := by
          exact mul_le_mul_of_nonneg_right h1 (by norm_num)
      _ = 100 := by norm_num

/-- Auxiliary arithmetic fact: the callback formula is monotone in the
iteration counter. -/
theorem progress_formula_mono (ci total : ℕ) :
    ((ci : ℚ) / (total : ℚ)) * 100 ≤ (((ci + 1 : ℕ) : ℚ) / (total : ℚ)) * 100 := by
  rcases Nat.eq_zero_or_pos total with h0 | hpos
  · subst h0
    norm_num
  · have hposq : (0 : ℚ) < (total : ℚ) := by exact_mod_cast hpos
    have h1 : ((ci : ℚ) / (total : ℚ)) ≤ (((ci + 1 : ℕ) : ℚ) / (total : ℚ)) := by
      gcongr
      · exact_mod_cast Nat.le_succ ci
    exact mul_le_mul_of_nonneg_right h1 (by norm_num)

/-- Every interleaved action leaves `progress` unchanged or larger. -/
theorem stepW_progress_mono (a : Act) (w : World) (h : Inv w) (hb : IterB w) :
    w.task.progress ≤ (stepW a w).task.progress := by
  cases a with
  | cancel =>
    show w.task.progress ≤ ((cancel_task w.task).1).progress
    unfold cancel_task
    split_ifs <;> exact le_rfl
  | engine =>
    show w.task.progress ≤ (engineStep w).task.progress
    cases hph : w.phase with
    | entry algs => exact le_of_eq (by simp only [engineStep, hph])
    | boundary algs =>
      cases algs with
      | nil =>
        simp only [engineStep, hph]
        split_ifs with hc
        · exact le_rfl
        · show w.task.progress ≤ 100
          rcases h.progSync with h4 | h4
          · rw [h4]
            apply progress_formula_le_100
            have := hb
            unfold IterB at this
            rw [hph] at this
            simpa [Phase.pendingReports] using this
          · rw [h.comp100 h4]
      | cons b rest =>
        simp only [engineStep, hph]
        split_ifs <;> exact le_rfl
    | inAlg reports fl rest =>
      cases reports with
      | nil =>
        simp only [engineStep, hph]
        split_ifs <;> exact le_rfl
      | cons f fs =>
        simp only [engineStep, hph]
        show w.task.progress ≤ (progress_callback 0 0 f w.task).progress
        rcases h.progSync with h4 | h4
        · rw [h4]
          exact progress_formula_mono _ _
        · exfalso
          have := h.termFin (Or.inl h4)
          rw [hph] at this; cases this
    | finished => exact le_of_eq (by simp only [engineStep, hph])

theorem runW_progress_mono (w : World) (l : List Act) (h : Inv w) (hb : IterB w) :
    w.task.progress ≤ (runW w l).task.progress := by
  induction l generalizing w with
  | nil => exact le_rfl
  | cons a l ih =>
    exact le_trans (stepW_progress_mono a w h hb)
      (ih (stepW a w) (inv_step a w h) (iterB_step a w hb))

/-- Every interleaved action leaves `bestFitness` unchanged or smaller: the
only write is `task.bestFitness = min(task.bestFitness, fitness)`. -/
theorem stepW_best_mono (a : Act) (w : World) :
    (stepW a w).task.bestFitness ≤ w.task.bestFitness := by
  cases a with
  | cancel =>
    show ((cancel_task w.task).1).bestFitness ≤ w.task.bestFitness
    unfold cancel_task
    split_ifs <;> exact le_rfl
  | engine =>
    show (engineStep w).task.bestFitness ≤ w.task.bestFitness
    cases hph : w.phase with
    | entry algs => exact le_of_eq (by simp only [engineStep, hph])
    | boundary algs =>
      cases algs <;> simp only [engineStep, hph] <;> split_ifs <;> exact le_rfl
    | inAlg reports fl rest =>
      cases reports with
      | nil =>
        simp only [engineStep, hph]
        split_ifs <;> exact le_rfl
      | cons f fs =>
        simp only [engineStep, hph]
        exact min_le_left _ _
    | finished => exact le_of_eq (by simp only [engineStep, hph])

theorem runW_best_mono (w : World) (l : List Act) :
    (runW w l).task.bestFitness ≤ w.task.bestFitness := by
  induction l generalizing w with
  | nil => exact le_rfl
  | cons a l ih => exact le_trans (ih (stepW a w)) (stepW_best_mono a w)

theorem ws_cons_unknown (o : Obs) (rest : List Obs) (h : o.taskSnap = none) :
    websocket_task_progress (o :: rest) = websocket_task_progress rest := by
  show (match o.taskSnap with
    | none => websocket_task_progress rest
    | some t =>
      if o.statusAfterSend.isTerminal then
        Msg.progress t :: (match o.resultAfterSend with
          | some r => [Msg.result r]
          | none => [])
      else Msg.progress t :: websocket_task_progress rest) = _
  rw [h]

theorem ws_cons_live (o : Obs) (rest : List Obs) (t : Task)
    (h : o.taskSnap = some t) (hnt : o.statusAfterSend.isTerminal = false) :
    websocket_task_progress (o :: rest) =
      Msg.progress t :: websocket_task_progress rest := by
  show (match o.taskSnap with
    | none => websocket_task_progress rest
    | some t =>
      if o.statusAfterSend.isTerminal then
        Msg.progress t :: (match o.resultAfterSend with
          | some r => [Msg.result r]
          | none => [])
      else Msg.progress t :: websocket_task_progress rest) = _
  rw [h]
  show (if o.statusAfterSend.isTerminal = true then _
    else Msg.progress t :: websocket_task_progress rest) = _
  rw [hnt, if_neg (by decide)]

theorem ws_cons_terminal (o : Obs) (rest : List Obs) (t : Task)
    (h : o.taskSnap = some t) (ht : o.statusAfterSend.isTerminal = true) :
    websocket_task_progress (o :: rest) =
      Msg.progress t :: (match o.resultAfterSend with
        | some r => [Msg.result r]
        | none => []) := by
  show (match o.taskSnap with
    | none => websocket_task_progress rest
    | some t =>
      if o.statusAfterSend.isTerminal then
        Msg.progress t :: (match o.resultAfterSend with
          | some r => [Msg.result r]
          | none => [])
      else Msg.progress t :: websocket_task_progress rest) = _
  rw [h]
  show (if o.statusAfterSend.isTerminal = true then
      Msg.progress t :: (match o.resultAfterSend with
        | some r => [Msg.result r]
        | none => [])
    else _) = _
  rw [ht, if_pos rfl]

theorem ws_nil_of_unknown (obs : List Obs) (h : ∀ o ∈ obs, o.taskSnap = none) :
    websocket_task_progress obs = [] := by
  induction obs with
  | nil => rfl
  | cons o rest ih =>
    rw [ws_cons_unknown o rest (h o (List.mem_cons_self o rest))]
    exact ih (fun x hx => h x (List.mem_cons_of_mem o hx))

theorem ws_append_of_live (pre rest : List Obs) (h : ∀ o ∈ pre, o.live) :
    websocket_task_progress (pre ++ rest) =
      websocket_task_progress pre ++ websocket_task_progress rest := by
  induction pre with
  | nil => rfl
  | cons o pre ih =>
    have ihr := ih (fun x hx => h x (List.mem_cons_of_mem o hx))
    rw [List.cons_append]
    rcases h o (List.mem_cons_self o pre) with hnone | hnt
    · rw [ws_cons_unknown o (pre ++ rest) hnone, ws_cons_unknown o pre hnone]
      exact ihr
    · cases hsnap : o.taskSnap with
      | none =>
        rw [ws_cons_unknown o (pre ++ rest) hsnap, ws_cons_unknown o pre hsnap]
        exact ihr
      | some t =>
        rw [ws_cons_live o (pre ++ rest) t hsnap hnt, ws_cons_live o pre t hsnap hnt,
          ihr, List.cons_append]

theorem ws_no_result_of_live (pre : List Obs) (h : ∀ o ∈ pre, o.live) :
    countResults (websocket_task_progress pre) = 0 := by
  induction pre with
  | nil => rfl
  | cons o pre ih =>
    have ihr := ih (fun x hx => h x (List.mem_cons_of_mem o hx))
    rcases h o (List.mem_cons_self o pre) with hnone | hnt
    · rw [ws_cons_unknown o pre hnone]
      exact ihr
    · cases hsnap : o.taskSnap with
      | none => rw [ws_cons_unknown o pre hsnap]; exact ihr
      | some t =>
        rw [ws_cons_live o pre t hsnap hnt]
        simpa [countResults] using ihr

theorem one_div_21_lt_exp_neg_three : (1 : ℝ) / 21 < Real.exp (-3) := by
  have h3 : Real.exp 3 < 21 := by
    have h1 : Real.exp 1 < 2.7182818286 := Real.exp_one_lt_d9
    have he : Real.exp 3 = Real.exp 1 ^ 3 := by
      rw [← Real.exp_nat_mul]
      norm_num
    rw [he]
    calc Real.exp 1 ^ 3 < 2.7182818286 ^ 3 := by
          exact pow_lt_pow_left₀ h1 (le_of_lt (Real.exp_pos 1)) (by norm_num)
      _ < 21 := by norm_num
  rw [Real.exp_neg, ← one_div]
  exact one_div_lt_one_div_of_lt (Real.exp_pos 3) h3

/-- With the initial fitness at least 100 and the noise draw at least
`-0.1`, an iteration `i < max_iter` produces a fitness strictly above the
`1e-10` floor (its decayed value is above `99.9 / 21 > 4`). -/
theorem simFitness_gt_floor (initF : ℝ) (noise : ℕ → ℝ) (max_iter i : ℕ)
    (hi : i < max_iter) (h100 : 100 ≤ initF) (hn : -(1 / 10) ≤ noise i) :
    1e-10 < simFitness initF noise max_iter i := by
  have hmpos : (0 : ℝ) < (max_iter : ℝ) := by
    have : 0 < max_iter := Nat.pos_of_ne_zero (by omega)
    exact_mod_cast this
  have him : (i : ℝ) ≤ (max_iter : ℝ) := by exact_mod_cast le_of_lt hi
  have hdl : Real.exp (-3) ≤ Real.exp (-3 * (i : ℝ) / (max_iter : ℝ)) := by
    apply Real.exp_le_exp.mpr
    rw [neg_mul, neg_div, neg_le_neg_iff]
    rw [div_le_iff₀ hmpos]
    nlinarith
  have hd0 : (0 : ℝ) < Real.exp (-3 * (i : ℝ) / (max_iter : ℝ)) := Real.exp_pos _
  have hsum : (999 : ℝ) / 10 ≤ initF + noise i := by linarith
  have hprod : (999 : ℝ) / 10 * Real.exp (-3) ≤
      (initF + noise i) * Real.exp (-3 * (i : ℝ) / (max_iter : ℝ)) := by
    apply mul_le_mul hsum hdl (le_of_lt (Real.exp_pos _))
    linarith
  have hflr : (1e-10 : ℝ) <
      initF * Real.exp (-3 * (i : ℝ) / (max_iter : ℝ))
        + noise i * Real.exp (-3 * (i : ℝ) / (max_iter : ℝ)) := by
    have hexp := one_div_21_lt_exp_neg_three
    nlinarith
  unfold simFitness
  rw [if_neg (by push_neg; exact le_of_lt hflr)]
  exact hflr

/-- C1 (counterexample): the backend reports `current = 1` and then
`current = 11` — ten more iterations completed since the previous report.
The claim predicts that `currentIteration` advances by the reported delta
(reaching 11), but the callback advances it by exactly 1 per invocation, so
it reaches only 2. -/
theorem C1_counterexample :
    (progress_callback 11 100 7
        (progress_callback 1 100 9 (mkTask "t" 100 1))).currentIteration = 2 ∧
    (2 : ℕ) ≠ 11 := by
  exact ⟨by decide, by decide⟩

/-- C1 (amended): every progress report delivered during a batch run
advances `currentIteration` by exactly 1 — the iteration counts reported by
the backend are ignored — sets `currentFitness` to the reported fitness,
folds the fitness into `bestFitness` by `min`, and recomputes
`progress = 100 * currentIteration / totalIterations` without clamping;
the recomputed progress lies in `[0, 100]` whenever the incremented counter
does not exceed `totalIterations`. -/
theorem C1_apply_progress (current total : ℕ) (fitness : ℚ) (t : Task)
    (h : t.currentIteration + 1 ≤ t.totalIterations) :
    (progress_callback current total fitness t).currentIteration
      = t.currentIteration + 1 ∧
    (progress_callback current total fitness t).currentFitness
      = (fitness : WithTop ℚ) ∧
    (progress_callback current total fitness t).bestFitness
      = min t.bestFitness (fitness : WithTop ℚ) ∧
    (progress_callback current total fitness t).progress
      = (((t.currentIteration + 1 : ℕ) : ℚ) / (t.totalIterations : ℚ)) * 100 ∧
    0 ≤ (progress_callback current total fitness t).progress ∧
    (progress_callback current total fitness t).progress ≤ 100 := by
  refine ⟨rfl, rfl, rfl, rfl, ?_, ?_⟩
  · show 0 ≤ (((t.currentIteration + 1 : ℕ) : ℚ) / (t.totalIterations : ℚ)) * 100
    positivity
  · exact progress_formula_le_100 _ _ h

/-- Witness for `C1_apply_progress` at a concrete task. -/
theorem C1_apply_progress_witness :
    ((mkTask "w" 5 1).currentIteration + 1 ≤ (mkTask "w" 5 1).totalIterations) ∧
    (progress_callback 1 5 3 (mkTask "w" 5 1)).progress ≤ 100 :=
  ⟨by decide, (C1_apply_progress 1 5 3 (mkTask "w" 5 1) (by decide)).2.2.2.2.2⟩

/-- C4 (counterexample): for two algorithms with equal bestFitness the claim
predicts a dense ranking giving both the same rank, but the source assigns
the 1-based positions of the stable sort, giving ranks 1 and 2. -/
theorem C4_counterexample :
    _calculate_rankings [("A", 5), ("B", 5)] = [("A", 1), ("B", 2)] ∧
    (1 : ℕ) ≠ 2 := by
  exact ⟨by decide, by decide⟩

/-- C4 (amended): `_calculate_rankings` produces a 1-based ORDINAL (not
dense) ranking: the pairs are stable-sorted by ascending bestFitness (ties
keeping input order, since Python `sorted` is stable) and the assigned ranks
are exactly the positions `1..n` in that order — so two algorithms with
equal bestFitness receive distinct consecutive ranks; the example input
A:5, B:2, C:8 yields rankings B:1, A:2, C:3. -/
theorem C4_rankings (l : List (String × ℚ)) :
    (_calculate_rankings l).map Prod.snd = List.range' 1 l.length ∧
    (_calculate_rankings l).map Prod.fst
      = (List.insertionSort fitnessLE l).map Prod.fst ∧
    List.Sorted fitnessLE (List.insertionSort fitnessLE l) ∧
    (List.insertionSort fitnessLE l).Perm l ∧
    _calculate_rankings [("A", 5), ("B", 2), ("C", 8)]
      = [("B", 1), ("A", 2), ("C", 3)] ∧
    _calculate_rankings [("A", 5), ("B", 5)] = [("A", 1), ("B", 2)] := by
  refine ⟨?_, ?_, List.sorted_insertionSort fitnessLE l,
    List.perm_insertionSort fitnessLE l, by decide, by decide⟩
  · show ((List.insertionSort fitnessLE l).enum.map
        (fun x => (x.2.1, x.1 + 1))).map Prod.snd = List.range' 1 l.length
    rw [List.map_map]
    have hf : (Prod.snd ∘ fun x : ℕ × (String × ℚ) => (x.2.1, x.1 + 1))
        = (fun n => n + 1) ∘ Prod.fst := rfl
    rw [hf, ← List.map_map, List.enum_map_fst,
      (List.perm_insertionSort fitnessLE l).length_eq,
      List.range'_eq_map_range 1 l.length]
    exact List.map_congr_left (fun x _ => Nat.add_comm x 1)
  · show ((List.insertionSort fitnessLE l).enum.map
        (fun x => (x.2.1, x.1 + 1))).map Prod.fst
      = (List.insertionSort fitnessLE l).map Prod.fst
    rw [List.map_map]
    have hf : (Prod.fst ∘ fun x : ℕ × (String × ℚ) => (x.2.1, x.1 + 1))
        = Prod.fst ∘ Prod.snd := rfl
    rw [hf, ← List.map_map, List.enum_map_snd]

/-- C2 (counterexample): terminal is not final for every field.  First
trace: one algorithm with two pending reports; after the first report a
cancel lands (status `cancelled`, terminal) and the still-executing
algorithm's next callback advances `currentIteration` from 1 to 2.  Second
trace: the backend raises after a cancel landed, overwriting the terminal
status `cancelled` with `error` — a second terminal transition. -/
theorem C2_counterexample :
    ((runW (initialWorld "t" 2 [⟨[5, 3], false⟩])
        [.engine, .engine, .engine, .cancel]).task.status = .cancelled ∧
      (runW (initialWorld "t" 2 [⟨[5, 3], false⟩])
        [.engine, .engine, .engine, .cancel]).task.currentIteration = 1 ∧
      (runW (initialWorld "t" 2 [⟨[5, 3], false⟩])
        [.engine, .engine, .engine, .cancel, .engine]).task.currentIteration = 2) ∧
    ((runW (initialWorld "e" 1 [⟨[], true⟩])
        [.engine, .engine, .cancel]).task.status = .cancelled ∧
      (runW (initialWorld "e" 1 [⟨[], true⟩])
        [.engine, .engine, .cancel, .engine]).task.status = .error) := by
  exact ⟨⟨by decide, by decide, by decide⟩, by decide, by decide⟩

/-- C2 (amended): once the status becomes `completed` or `error` the whole
task is frozen — every further interleaving of executor steps and cancel
calls leaves the world unchanged, so no field is ever mutated again and no
second terminal transition occurs.  After `cancelled`, by contrast, the
callbacks of an algorithm still in flight keep mutating the progress fields
and a backend failure may overwrite the status with `error` (see the
counterexample), but the status still never leaves the terminal set. -/
theorem C2_frozen_after_terminal (tid : String) (mi : ℕ) (algs : List AlgBehavior)
    (l1 l2 : List Act)
    (h : (runW (initialWorld tid mi algs) l1).task.status = .completed ∨
         (runW (initialWorld tid mi algs) l1).task.status = .error) :
    runW (initialWorld tid mi algs) (l1 ++ l2) = runW (initialWorld tid mi algs) l1 ∧
    (runW (initialWorld tid mi algs) (l1 ++ l2)).task.status.isTerminal = true := by
  have hinv := inv_runW _ l1 (inv_initial tid mi algs)
  have hfr : runW (initialWorld tid mi algs) (l1 ++ l2)
      = runW (initialWorld tid mi algs) l1 := by
    rw [runW_append]
    exact runW_frozen _ l2 hinv h
  refine ⟨hfr, ?_⟩
  rw [hfr]
  rcases h with h | h <;> rw [h] <;> rfl

/-- Witness for `C2_frozen_after_terminal`: a completed single-algorithm
batch stays untouched by a late cancel. -/
theorem C2_frozen_after_terminal_witness :
    ((runW (initialWorld "t" 1 [⟨[], false⟩])
        [Act.engine, Act.engine, Act.engine, Act.engine]).task.status
          = Status.completed ∨
      (runW (initialWorld "t" 1 [⟨[], false⟩])
        [Act.engine, Act.engine, Act.engine, Act.engine]).task.status
          = Status.error) ∧
    runW (initialWorld "t" 1 [⟨[], false⟩])
        ([Act.engine, Act.engine, Act.engine, Act.engine] ++ [Act.cancel])
      = runW (initialWorld "t" 1 [⟨[], false⟩])
        [Act.engine, Act.engine, Act.engine, Act.engine] :=
  ⟨Or.inl (by decide),
    (C2_frozen_after_terminal "t" 1 [⟨[], false⟩]
      [Act.engine, Act.engine, Act.engine, Act.engine] [Act.cancel]
      (Or.inl (by decide))).1⟩

/-- C6: a backend failure ends the batch: the step that catches the
exception writes status `error`, returns, and touches neither the result
store nor the invocation count; and in every reachable state with status
`error` the result store has no entry for the task, the executor has
returned, and all further actions leave the world unchanged — no retry, no
further algorithm, and nothing is ever published for the task. -/
theorem C6_fail_fast (w : World) (rest : List AlgBehavior)
    (tid : String) (mi : ℕ) (algs : List AlgBehavior) (l1 l2 : List Act)
    (hw : w.phase = .inAlg [] true rest)
    (he : (runW (initialWorld tid mi algs) l1).task.status = .error) :
    (engineStep w).task.status = .error ∧
    (engineStep w).phase = .finished ∧
    (engineStep w).store = w.store ∧
    (engineStep w).started = w.started ∧
    (runW (initialWorld tid mi algs) l1).store = none ∧
    (runW (initialWorld tid mi algs) l1).phase = .finished ∧
    runW (initialWorld tid mi algs) (l1 ++ l2) = runW (initialWorld tid mi algs) l1 := by
  have hinv := inv_runW _ l1 (inv_initial tid mi algs)
  have hstep : engineStep w
      = { w with task := { w.task with status := .error }, phase := .finished } := by
    simp only [engineStep, hw]
    rfl
  refine ⟨by rw [hstep], by rw [hstep], by rw [hstep], by rw [hstep], ?_,
    hinv.termFin (Or.inr he), ?_⟩
  · cases hst : (runW (initialWorld tid mi algs) l1).store with
    | none => rfl
    | some n =>
      exfalso
      have hcomp := hinv.storeComp (by rw [hst]; rfl)
      rw [he] at hcomp
      cases hcomp
  · rw [runW_append]
    exact runW_frozen _ l2 hinv (Or.inr he)

/-- Witness for `C6_fail_fast`: a single failing algorithm. -/
theorem C6_fail_fast_witness :
    ((⟨mkTask "x" 1 1, Phase.inAlg [] true [], 1, 0, none⟩ : World).phase
        = Phase.inAlg [] true []) ∧
    ((runW (initialWorld "t" 1 [⟨[], true⟩])
        [Act.engine, Act.engine, Act.engine]).task.status = Status.error) ∧
    (runW (initialWorld "t" 1 [⟨[], true⟩]) [Act.engine, Act.engine, Act.engine]).store
      = none :=
  ⟨rfl, by decide,
    (C6_fail_fast ⟨mkTask "x" 1 1, Phase.inAlg [] true [], 1, 0, none⟩ []
      "t" 1 [⟨[], true⟩] [Act.engine, Act.engine, Act.engine] []
      rfl (by decide)).2.2.2.2.1⟩

/-- C7: `cancel_task` on a running task sets status `cancelled` and answers
true; on any other status it answers false and leaves the task untouched;
and once a run's status is `cancelled`, no further backend invocation of
that batch begins (the invocation count is frozen for the rest of the run
and the status stays terminal). -/
theorem C7_cancel (t : Task) (tid : String) (mi : ℕ) (algs : List AlgBehavior)
    (l1 l2 : List Act) :
    (t.status = .running → cancel_task t = ({ t with status := .cancelled }, true)) ∧
    (t.status ≠ .running → cancel_task t = (t, false)) ∧
    ((runW (initialWorld tid mi algs) l1).task.status = .cancelled →
      (runW (initialWorld tid mi algs) (l1 ++ l2)).started
        = (runW (initialWorld tid mi algs) l1).started ∧
      (runW (initialWorld tid mi algs) (l1 ++ l2)).task.status.isTerminal = true) := by
  refine ⟨?_, ?_, ?_⟩
  · intro h
    unfold cancel_task
    rw [if_pos h]
  · intro h
    unfold cancel_task
    rw [if_neg h]
  · intro h
    have hinv := inv_runW _ l1 (inv_initial tid mi algs)
    have ht : (runW (initialWorld tid mi algs) l1).task.status.isTerminal = true := by
      rw [h]; rfl
    rw [runW_append]
    exact runW_terminal _ l2 hinv ht

/-- Witness for `C7_cancel`: cancelling a running batch freezes the
invocation count even while the in-flight algorithm keeps reporting. -/
theorem C7_cancel_witness :
    ((runW (initialWorld "t" 2 [⟨[5, 3], false⟩])
        [Act.engine, Act.engine, Act.engine, Act.cancel]).task.status
          = Status.cancelled) ∧
    (runW (initialWorld "t" 2 [⟨[5, 3], false⟩])
        ([Act.engine, Act.engine, Act.engine, Act.cancel] ++ [Act.engine, Act.engine])).started
      = (runW (initialWorld "t" 2 [⟨[5, 3], false⟩])
        [Act.engine, Act.engine, Act.engine, Act.cancel]).started :=
  ⟨by decide,
    ((C7_cancel (mkTask "x" 1 1) "t" 2 [⟨[5, 3], false⟩]
      [Act.engine, Act.engine, Act.engine, Act.cancel] [Act.engine, Act.engine]).2.2
      (by decide)).1⟩

/-- C8: progress starts at 0 at creation, never decreases across any
interleaving of executor steps and cancel calls, and equals exactly 100
whenever the status is `completed`.  The hypothesis bounds each algorithm's
number of progress reports by `maxIterations`, which the backends satisfy:
the synthetic backend reports at most once per 10 iterations (last
conjunct: its sink trace is never longer than `max_iter`), and the
remote-engine path never invokes the callback at all. -/
theorem C8_progress_monotone (tid : String) (mi : ℕ) (algs : List AlgBehavior)
    (l1 l2 : List Act)
    (hb : ∀ b ∈ algs, b.reports.length ≤ mi) :
    (initialWorld tid mi algs).task.progress = 0 ∧
    (runW (initialWorld tid mi algs) l1).task.progress
      ≤ (runW (initialWorld tid mi algs) (l1 ++ l2)).task.progress ∧
    ((runW (initialWorld tid mi algs) l1).task.status = .completed →
      (runW (initialWorld tid mi algs) l1).task.progress = 100) ∧
    (∀ (initF : ℝ) (noise : ℕ → ℝ) (max_iter : ℕ),
      (sinkTrace initF noise max_iter).length ≤ max_iter) := by
  refine ⟨rfl, ?_, ?_, ?_⟩
  · rw [runW_append]
    exact runW_progress_mono _ l2 (inv_runW _ l1 (inv_initial tid mi algs))
      (iterB_runW _ l1 (iterB_initial tid mi algs hb))
  · exact fun h => (inv_runW _ l1 (inv_initial tid mi algs)).comp100 h
  · intro initF noise max_iter
    calc (sinkTrace initF noise max_iter).length
        = ((List.range max_iter).filter (fun i => i % 10 == 0)).length := by
          simp [sinkTrace]
      _ ≤ (List.range max_iter).length := List.length_filter_le _ _
      _ = max_iter := List.length_range max_iter

/-- Witness for `C8_progress_monotone`. -/
theorem C8_progress_monotone_witness :
    (∀ b ∈ [(⟨[3], false⟩ : AlgBehavior)], b.reports.length ≤ 1) ∧
    (initialWorld "t" 1 [(⟨[3], false⟩ : AlgBehavior)]).task.progress = 0 :=
  ⟨by decide,
    (C8_progress_monotone "t" 1 [⟨[3], false⟩] [Act.engine] [Act.engine]
      (by decide)).1⟩

/-- C9: `bestFitness` starts at `float('inf')` at task creation,
each progress callback replaces it by `min(bestFitness, fitness)`, and it
never increases across any action of a batch run. -/
theorem C9_best_fitness (tid : String) (mi numAlgs : ℕ) (algs : List AlgBehavior)
    (current total : ℕ) (fitness : ℚ) (t : Task) (l1 l2 : List Act) :
    (mkTask tid mi numAlgs).bestFitness = ⊤ ∧
    (progress_callback current total fitness t).bestFitness
      = min t.bestFitness (fitness : WithTop ℚ) ∧
    (runW (initialWorld tid mi algs) (l1 ++ l2)).task.bestFitness
      ≤ (runW (initialWorld tid mi algs) l1).task.bestFitness := by
  refine ⟨rfl, rfl, ?_⟩
  rw [runW_append]
  exact runW_best_mono _ l2

theorem countResults_append (a b : List Msg) :
    countResults (a ++ b) = countResults a + countResults b := by
  simp [countResults, List.filter_append]

/-- C3: with `maxIterations = 100` and the uniform draws inside their
documented ranges (initial fitness in `[100, 1000]`, noise in
`[-0.1, 0.1]`), a synthetic-backend run produces a convergence curve of
length exactly 100 whose every value is strictly greater than `1e-10`, and
invokes the progress sink exactly 10 times, with first argument
1, 11, 21, ..., 91 in that order. -/
theorem C3_synthetic_backend (initF : ℝ) (noise : ℕ → ℝ)
    (h100 : 100 ≤ initF) (h1000 : initF ≤ 1000)
    (hn : ∀ i, -(1 / 10) ≤ noise i ∧ noise i ≤ 1 / 10) :
    (convergence_curve initF noise 100).length = 100 ∧
    (∀ x ∈ convergence_curve initF noise 100, 1e-10 < x) ∧
    (sinkTrace initF noise 100).length = 10 ∧
    (sinkTrace initF noise 100).map (fun c => c.1)
      = [1, 11, 21, 31, 41, 51, 61, 71, 81, 91] := by
  refine ⟨?_, ?_, ?_, ?_⟩
  · simp [convergence_curve]
  · intro x hx
    simp only [convergence_curve] at hx
    obtain ⟨i, hi, rfl⟩ := List.mem_map.mp hx
    exact simFitness_gt_floor initF noise 100 i (List.mem_range.mp hi) h100 (hn i).1
  · simp only [sinkTrace, List.length_map]
    decide
  · show (((List.range 100).filter (fun i => i % 10 == 0)).map
        (fun i => (i + 1, 100, simFitness initF noise 100 i))).map (fun c => c.1)
      = [1, 11, 21, 31, 41, 51, 61, 71, 81, 91]
    rw [List.map_map]
    show ((List.range 100).filter (fun i => i % 10 == 0)).map (fun i => i + 1)
      = [1, 11, 21, 31, 41, 51, 61, 71, 81, 91]
    decide

/-- Witness for `C3_synthetic_backend` at initial fitness 500 and zero
noise draws. -/
theorem C3_synthetic_backend_witness :
    ((100 : ℝ) ≤ 500) ∧ ((500 : ℝ) ≤ 1000) ∧
    (∀ i : ℕ, -(1 / 10 : ℝ) ≤ (fun _ : ℕ => (0 : ℝ)) i
      ∧ (fun _ : ℕ => (0 : ℝ)) i ≤ 1 / 10) ∧
    (convergence_curve 500 (fun _ => 0) 100).length = 100 :=
  ⟨by norm_num, by norm_num, fun i => ⟨by norm_num, by norm_num⟩,
    (C3_synthetic_backend 500 (fun _ => 0) (by norm_num) (by norm_num)
      (fun i => ⟨by norm_num, by norm_num⟩)).1⟩

/-- C5 (counterexample): the progress payload is captured before the
`await websocket.send_json` suspension, but the terminal check re-reads the
live `task.status` after it.  If the executor finishes the task while the
send is suspended, the stream closes with the transcript
`progress(running), result`: the final progress message carries a
non-terminal status and no progress message with status `completed` ever
precedes the result.  The wake-up used here is realizable: after two
executor steps the batch is running with the recorded snapshot, and after
two more it is completed with its result stored. -/
theorem C5_counterexample :
    websocket_task_progress
        [⟨some (runW (initialWorld "s" 1 [⟨[], false⟩]) [.engine, .engine]).task,
          .completed, some 1⟩]
      = [Msg.progress (runW (initialWorld "s" 1 [⟨[], false⟩]) [.engine, .engine]).task,
         Msg.result 1] ∧
    (runW (initialWorld "s" 1 [⟨[], false⟩]) [.engine, .engine]).task.status
      = .running ∧
    Status.running.isTerminal = false ∧
    (runW (initialWorld "s" 1 [⟨[], false⟩])
        [.engine, .engine, .engine, .engine]).task.status = .completed ∧
    (runW (initialWorld "s" 1 [⟨[], false⟩])
        [.engine, .engine, .engine, .engine]).store = some 1 := by
  exact ⟨by decide, by decide, by decide, by decide, by decide⟩

/-- C5 (amended): one websocket subscription, over the wake-ups its polling
loop observes.  (i) While the task id is unknown the stream emits nothing.
(ii) When the status re-read after a send is terminal for the first time
(every earlier wake-up found the task absent or a non-terminal post-send
status), the transcript is the progress messages of the live wake-ups, one
last progress message — carrying the pre-send snapshot, whose status may
still be non-terminal if the task reached the terminal status during the
send (see the counterexample) — then the stored result payload, sent
exactly once iff the post-send status is completed and a stored result
exists, and then the stream closes: nothing from later wake-ups is
emitted.  (iii) For a task whose post-send read shows completed with its
stored result, the transcript ends with one progress message followed by
exactly one result message.  (iv) The consistency hypothesis `hcons` holds
of every post-send read the system can produce: both fields are read in one
synchronous slice, and in any reachable world a published result store
implies status completed. -/
theorem C5_stream (pre : List Obs) (o : Obs) (rest : List Obs) (t : Task) (r : ℕ)
    (tid : String) (mi : ℕ) (algs : List AlgBehavior)
    (hlive : ∀ x ∈ pre, x.live)
    (hsnap : o.taskSnap = some t)
    (hterm : o.statusAfterSend.isTerminal = true)
    (hcons : o.resultAfterSend.isSome = true → o.statusAfterSend = .completed) :
    (∀ obs : List Obs, (∀ x ∈ obs, x.taskSnap = none) →
        websocket_task_progress obs = []) ∧
    websocket_task_progress (pre ++ o :: rest)
      = websocket_task_progress pre
          ++ Msg.progress t :: (match o.resultAfterSend with
              | some rr => [Msg.result rr]
              | none => []) ∧
    (countResults (websocket_task_progress (pre ++ o :: rest)) = 1
      ↔ o.statusAfterSend = .completed ∧ o.resultAfterSend.isSome = true) ∧
    (o.resultAfterSend = some r →
      websocket_task_progress (pre ++ o :: rest)
        = websocket_task_progress pre ++ [Msg.progress t, Msg.result r]
      ∧ o.statusAfterSend = .completed) ∧
    (∀ l : List Act, ((runW (initialWorld tid mi algs) l).store).isSome = true →
      (runW (initialWorld tid mi algs) l).task.status = .completed) := by
  have htrans : websocket_task_progress (pre ++ o :: rest)
      = websocket_task_progress pre
          ++ Msg.progress t :: (match o.resultAfterSend with
              | some rr => [Msg.result rr]
              | none => []) := by
    rw [ws_append_of_live pre (o :: rest) hlive, ws_cons_terminal o rest t hsnap hterm]
  refine ⟨ws_nil_of_unknown, htrans, ?_, ?_, ?_⟩
  · rw [htrans, countResults_append, ws_no_result_of_live pre hlive]
    cases hres : o.resultAfterSend with
    | none =>
      constructor
      · intro hcount
        exfalso
        simp [countResults] at hcount
      · rintro ⟨-, hsome⟩
        simp at hsome
    | some rr =>
      constructor
      · intro _
        exact ⟨hcons (by rw [hres]; rfl), rfl⟩
      · intro _
        simp [countResults]
  · intro hres
    refine ⟨?_, hcons (by rw [hres]; rfl)⟩
    rw [htrans, hres]
  · intro l hs
    exact (inv_runW _ l (inv_initial tid mi algs)).storeComp hs

/-- Witness for `C5_stream`: the empty live initial segment and a wake-up
whose post-send read shows completed with the stored result. -/
theorem C5_stream_witness :
    (∀ x ∈ ([] : List Obs), x.live) ∧
    ((⟨some ({ mkTask "s" 1 1 with status := Status.completed }),
        Status.completed, some 1⟩ : Obs).taskSnap
      = some ({ mkTask "s" 1 1 with status := Status.completed })) ∧
    (⟨some ({ mkTask "s" 1 1 with status := Status.completed }),
        Status.completed, some 1⟩ : Obs).statusAfterSend.isTerminal = true ∧
    (websocket_task_progress
        ([] ++ (⟨some ({ mkTask "s" 1 1 with status := Status.completed }),
          Status.completed, some 1⟩ : Obs) :: [])
      = websocket_task_progress []
          ++ [Msg.progress { mkTask "s" 1 1 with status := Status.completed },
              Msg.result 1]
      ∧ (⟨some ({ mkTask "s" 1 1 with status := Status.completed }),
          Status.completed, some 1⟩ : Obs).statusAfterSend = Status.completed) :=
  ⟨fun x hx => absurd hx (List.not_mem_nil x), rfl, rfl,
    (C5_stream []
      (⟨some ({ mkTask "s" 1 1 with status := Status.completed }),
        Status.completed, some 1⟩)
      [] ({ mkTask "s" 1 1 with status := Status.completed }) 1 "t" 1 []
      (fun x hx => absurd hx (List.not_mem_nil x)) rfl rfl
      (fun _ => rfl)).2.2.2.1 rfl⟩

/-- C10: the synthetic backend's `bestSolution` always has length exactly
30, and its result is independent of the submitted problem definition: of
the whole problem only `problem.id` even reaches the bridge, and the
simulation never reads it, so problem id, dimension and bounds influence no
field.  From the configuration the simulation reads only `maxIterations`
and `populationSize`: two configurations agreeing on those two keys yield
identical results except for the verbatim echo of the configuration dict in
`metadata.config` (which is the submitted configuration itself, third
conjunct). -/
theorem C10_problem_independent (alg : String) (p q : ProblemDefinition)
    (cfg cfg2 : SimConfig) (rnd : ℕ → ℝ)
    (hmi : cfg.maxIterations = cfg2.maxIterations)
    (hps : cfg.populationSize = cfg2.populationSize) :
    run_optimization alg p cfg rnd = run_optimization alg q cfg rnd ∧
    (∀ r, run_optimization alg p cfg rnd = some r → r.bestSolution.length = 30) ∧
    (∀ r, run_optimization alg p cfg rnd = some r → r.metaConfig = cfg) ∧
    Option.map stripConfig (run_optimization alg p cfg rnd)
      = Option.map stripConfig (run_optimization alg q cfg2 rnd) := by
  refine ⟨rfl, ?_, ?_, ?_⟩
  · intro r hr
    simp only [run_optimization, _simulate_optimization] at hr
    rcases hget : (convergence_curve (rnd 0) (fun i => rnd (1 + i))
        (cfg.maxIterations.getD 500)).getLast? with - | bf
    · rw [hget] at hr
      cases hr
    · rw [hget] at hr
      rw [Option.some.injEq] at hr
      rw [← hr]
      simp
  · intro r hr
    simp only [run_optimization, _simulate_optimization] at hr
    rcases hget : (convergence_curve (rnd 0) (fun i => rnd (1 + i))
        (cfg.maxIterations.getD 500)).getLast? with - | bf
    · rw [hget] at hr
      cases hr
    · rw [hget] at hr
      rw [Option.some.injEq] at hr
      rw [← hr]
  · simp only [run_optimization, _simulate_optimization, hmi, hps]
    rcases hget : (convergence_curve (rnd 0) (fun i => rnd (1 + i))
        (cfg2.maxIterations.getD 500)).getLast? with - | bf
    · rfl
    · rfl

/-- Witness for `C10_problem_independent`: two distinct problems, two
configurations differing only in an extra key. -/
theorem C10_problem_independent_witness :
    (({ maxIterations := some 3, populationSize := some 7,
        extra := [("verbose", "true")] } : SimConfig).maxIterations
      = ({ maxIterations := some 3, populationSize := some 7,
           extra := [] } : SimConfig).maxIterations) ∧
    run_optimization "GWO" ({ id := "F1", dimension := 30, lowerBound := 0, upperBound := 1 })
        ({ maxIterations := some 3, populationSize := some 7,
           extra := [("verbose", "true")] }) (fun _ => 0)
      = run_optimization "GWO" ({ id := "F2", dimension := 2, lowerBound := 5, upperBound := 9 })
        ({ maxIterations := some 3, populationSize := some 7,
           extra := [("verbose", "true")] }) (fun _ => 0) :=
  ⟨rfl,
    (C10_problem_independent "GWO"
      ({ id := "F1", dimension := 30, lowerBound := 0, upperBound := 1 })
      ({ id := "F2", dimension := 2, lowerBound := 5, upperBound := 9 })
      ({ maxIterations := some 3, populationSize := some 7, extra := [("verbose", "true")] })
      ({ maxIterations := some 3, populationSize := some 7, extra := [] })
      (fun _ => 0) rfl rfl).1⟩

end MetaOpt
